import Mathlib

/-!
Shallow embedding of the Metric Aggregation & Risk Scoring Engine of
TechDebtAnalyser (`src/risk_scorer/scorer.py`, class `RiskScorer`).

Modelling conventions:
* A pandas `DataFrame` is a Lean list of typed rows; the numeric cells are `ℚ`.
* A timestamp is a rational number of days; `pd.Timestamp.now()` becomes an
  explicit parameter `now`, and `pd.to_datetime` on an already-numeric
  timestamp is the identity.
* `NaN` cells produced by the outer join are `Option.none`.
* In-place column assignment on a stored table (e.g.
  `maintainability['maintainability_score'] = ...`) is modelled by an
  `Option ℚ` field of the stored row that is `none` until the engine
  assigns it; the mutating methods return the updated stored table
  alongside the frame of selected columns they hand back.
* `df.sort_values(...)` runs numpy quicksort, whose order on equal keys is
  unspecified; the model uses an insertion sort with the same (descending)
  key, which agrees with the source whenever all keys are distinct.
* `df.groupby('file_path')` sorts the distinct keys; the model sorts the
  deduplicated key list with the same comparison.
-/

namespace TDA

/-- Minimum of a list of rationals, as `Series.min` on a non-empty column
(the `[]` case is never reached by the engine; it is given a junk value). -/
def listMin : List ℚ → ℚ
  | [] => 0
  | [x] => x
  | x :: y :: xs => min x (listMin (y :: xs))

/-- Maximum of a list of rationals, as `Series.max` on a non-empty column. -/
def listMax : List ℚ → ℚ
  | [] => 0
  | [x] => x
  | x :: y :: xs => max x (listMax (y :: xs))

/-- Arithmetic mean of a list of rationals, as `SeriesGroupBy.mean` on one
group (groups coming from `groupby` are never empty). -/
def mean (xs : List ℚ) : ℚ := xs.sum / (xs.length : ℚ)

/-- `sklearn.preprocessing.MinMaxScaler` with the default feature range,
applied to one column (`scorer.py` lines 40-42): each value becomes
`(x - min) / (max - min)`; when `max - min = 0` sklearn substitutes the
divisor 1 (`_handle_zeros_in_scale`), sending every value to 0. -/
def minMaxScale (vals : List ℚ) : List ℚ :=
  let mn := listMin vals
  let mx := listMax vals
  let d := if mx - mn = 0 then 1 else mx - mn
  vals.map fun x => (x - mn) / d

/-- `RiskScorer._normalize_metric` (`scorer.py` lines 26-42) restricted to
the values of the selected column: an empty table yields an empty series,
otherwise the column is min-max scaled.  (The `column not in df.columns`
guard is outside this value-level model; every internal call passes a
column the frame has.) -/
def normalize_metric (vals : List ℚ) : List ℚ :=
  if vals.isEmpty then [] else minMaxScale vals

/-- A returned score frame `df[['file_path', '<metric>_score']]`:
pairs of file path and score. -/
abbrev ScoreDf := List (String × ℚ)

/-- One row of the stored `git_metrics['last_modified']` table.  The two
trailing fields model the columns the engine assigns in place
(`scorer.py` lines 58-66); a fresh collaborator table has them `none`. -/
structure LastModRow where
  file_path : String
  last_modified : ℚ
  age_days : Option ℚ := none
  aging_score : Option ℚ := none
  deriving DecidableEq

/-- One row of the stored `static_metrics['maintainability']` table, with
the in-place `maintainability_score` column (`scorer.py` line 130). -/
structure MaintRow where
  file_path : String
  maintainability_index : ℚ
  maintainability_score : Option ℚ := none
  deriving DecidableEq

/-- One row of the stored `static_metrics['test_coverage']` table, with
the in-place `coverage_score` column (`scorer.py` line 148). -/
structure CovRow where
  file_path : String
  line_coverage : ℚ
  coverage_score : Option ℚ := none
  deriving DecidableEq

/-- The `git_metrics` dict handed to `RiskScorer.__init__`.  The
`change_frequency` table keeps only the columns the scorer reads:
`file_path` and `change_count` (`window_end` is never consulted). -/
structure GitMetrics where
  last_modified : List LastModRow
  change_frequency : List (String × ℚ)
  deriving DecidableEq

/-- The `static_metrics` dict handed to `RiskScorer.__init__`.  The
`complexity` table keeps `file_path` and `complexity` (`function_name`
and `line_number` are never consulted). -/
structure StaticMetrics where
  complexity : List (String × ℚ)
  maintainability : List MaintRow
  test_coverage : List CovRow
  deriving DecidableEq

/-- `RiskScorer.calculate_aging_score` (`scorer.py` lines 44-72) with the
wall clock `now` explicit.  It returns the mutated stored table (which
gains the `age_days` and `aging_score` columns) together with the frame
`last_modified[['file_path', 'aging_score']]`.  Note the score is
`age_days / max_age` when `max_age > 0` and the scalar 0 otherwise; this
method does not go through `_normalize_metric`. -/
def calculate_aging_score (now : ℚ) (t : List LastModRow) :
    List LastModRow × ScoreDf :=
  if t.isEmpty then (t, [])
  else
    let maxAge := listMax (t.map fun r => now - r.last_modified)
    let stored := t.map fun r =>
      { r with
        age_days := some (now - r.last_modified)
        aging_score := some (if 0 < maxAge then (now - r.last_modified) / maxAge else 0) }
    (stored, t.map fun r =>
      (r.file_path, if 0 < maxAge then (now - r.last_modified) / maxAge else 0))

/-- `df.groupby('file_path')[col].mean().reset_index()`: the distinct file
paths in sorted order, each with the mean of its group. -/
def groupbyMean (rows : List (String × ℚ)) : List (String × ℚ) :=
  let keys := List.insertionSort (fun a b : String => a ≤ b) (rows.map Prod.fst).dedup
  keys.map fun k => (k, mean ((rows.filter fun p => p.1 = k).map Prod.snd))

/-- `RiskScorer.calculate_change_frequency_score` (`scorer.py` lines
74-94): mean change count per file, then min-max normalized. -/
def calculate_change_frequency_score (change_freq : List (String × ℚ)) : ScoreDf :=
  if change_freq.isEmpty then []
  else
    let freq := groupbyMean change_freq
    (freq.map Prod.fst).zip (normalize_metric (freq.map Prod.snd))

/-- `RiskScorer.calculate_complexity_score` (`scorer.py` lines 96-116):
mean cyclomatic complexity per file, then min-max normalized. -/
def calculate_complexity_score (complexity : List (String × ℚ)) : ScoreDf :=
  if complexity.isEmpty then []
  else
    let comp := groupbyMean complexity
    (comp.map Prod.fst).zip (normalize_metric (comp.map Prod.snd))

/-- `RiskScorer.calculate_maintainability_score` (`scorer.py` lines
118-134): min-max normalize the maintainability index, assigning the
score column in place on the stored table, and return the mutated stored
table with the selected two columns. -/
def calculate_maintainability_score (t : List MaintRow) :
    List MaintRow × ScoreDf :=
  if t.isEmpty then (t, [])
  else
    let scores := normalize_metric (t.map fun r => r.maintainability_index)
    let stored := t.zipWith (fun r v => { r with maintainability_score := some v }) scores
    (stored, (t.map fun r => r.file_path).zip scores)

/-- `RiskScorer.calculate_coverage_score` (`scorer.py` lines 136-152):
min-max normalize the line coverage, assigning the score column in place
on the stored table. -/
def calculate_coverage_score (t : List CovRow) :
    List CovRow × ScoreDf :=
  if t.isEmpty then (t, [])
  else
    let scores := normalize_metric (t.map fun r => r.line_coverage)
    let stored := t.zipWith (fun r v => { r with coverage_score := some v }) scores
    (stored, (t.map fun r => r.file_path).zip scores)

/-- The five metric kinds the combiner recognizes. -/
inductive MetricKind
  | aging | frequency | complexity | maintainability | coverage
  deriving DecidableEq

/-- The weight dict passed to `calculate_risk_score` (all five keys). -/
structure Weights where
  aging : ℚ
  frequency : ℚ
  complexity : ℚ
  maintainability : ℚ
  coverage : ℚ
  deriving DecidableEq

/-- The default weights of `calculate_risk_score` (`scorer.py` lines
165-172). -/
def defaultWeights : Weights :=
  { aging := 0.2, frequency := 0.2, complexity := 0.3
    maintainability := 0.2, coverage := 0.1 }

/-- Weight configured for one metric kind. -/
def weightOf (w : Weights) : MetricKind → ℚ
  | .aging => w.aging
  | .frequency => w.frequency
  | .complexity => w.complexity
  | .maintainability => w.maintainability
  | .coverage => w.coverage

/-- One row of the merged `risk_df`: the join key plus one optional cell
per score column (`none` both for a join-induced `NaN` and for a column
the frame does not have; which columns the frame has is tracked by
`RiskDF.flags`). -/
structure MergedRow where
  file_path : String
  aging_score : Option ℚ := none
  frequency_score : Option ℚ := none
  complexity_score : Option ℚ := none
  maintainability_score : Option ℚ := none
  coverage_score : Option ℚ := none
  deriving DecidableEq

/-- The merged `risk_df` of `scorer.py` lines 184-190: its rows, plus a
flag per metric kind recording whether that score column is present
(mirroring the `'<metric>_score' in risk_df.columns` tests). -/
structure RiskDF where
  flags : MetricKind → Bool
  rows : List MergedRow

/-- The initial `pd.DataFrame()` accumulator: no columns, no rows. -/
def emptyRiskDF : RiskDF := { flags := fun _ => false, rows := [] }

/-- Write the score of kind `k` into a merged row. -/
def setScore (k : MetricKind) (v : ℚ) (r : MergedRow) : MergedRow :=
  match k with
  | .aging => { r with aging_score := some v }
  | .frequency => { r with frequency_score := some v }
  | .complexity => { r with complexity_score := some v }
  | .maintainability => { r with maintainability_score := some v }
  | .coverage => { r with coverage_score := some v }

/-- A merged row holding only the join key (all cells `NaN`). -/
def blankRow (fp : String) : MergedRow := { file_path := fp }

/-- A merged row made from one score-frame row. -/
def startRow (k : MetricKind) (p : String × ℚ) : MergedRow :=
  setScore k p.2 (blankRow p.1)

/-- `pd.merge(risk_df, score_df, on='file_path', how='outer')`
(`scorer.py` line 190): every left row is matched with every right row
sharing its key (kept as-is, with a `NaN` new column, when there is no
match), then the unmatched right rows are appended.  Row multiset
faithful to pandas; pandas additionally sorts the keys of an outer
merge, which only permutes the rows. -/
def mergeScore (acc : List MergedRow) (k : MetricKind) (df : ScoreDf) :
    List MergedRow :=
  (acc.map fun r =>
    let ms := df.filter fun p => p.1 = r.file_path
    if ms.isEmpty then [r] else ms.map fun m => setScore k m.2 r).flatten
  ++ ((df.filter fun m => ¬ acc.any fun r => r.file_path = m.1).map
      fun m => setScore k m.2 (blankRow m.1))

/-- One iteration of the merge loop of `scorer.py` lines 185-190:
`if not score_df.empty: risk_df = score_df if risk_df.empty else merge`. -/
def step (acc : RiskDF) (k : MetricKind) (df : ScoreDf) : RiskDF :=
  if df.isEmpty then acc
  else
    { flags := fun q => if q = k then true else acc.flags q
      rows := if acc.rows.isEmpty then df.map (startRow k)
              else mergeScore acc.rows k df }

/-- The whole merge loop, over an explicit list of score frames. -/
def align (l : List (MetricKind × ScoreDf)) : RiskDF :=
  l.foldl (fun acc p => step acc p.1 p.2) emptyRiskDF

/-- The merged `risk_df` built by `calculate_risk_score` from its five
component scores, in the source order of the `scores` list
(`scorer.py` lines 175-190). -/
def mergedRisk (now : ℚ) (g : GitMetrics) (s : StaticMetrics) : RiskDF :=
  align [(.aging, (calculate_aging_score now g.last_modified).2),
         (.frequency, calculate_change_frequency_score g.change_frequency),
         (.complexity, calculate_complexity_score s.complexity),
         (.maintainability, (calculate_maintainability_score s.maintainability).2),
         (.coverage, (calculate_coverage_score s.test_coverage).2)]

/-- A merged row after `risk_df.fillna(0.5)` (`scorer.py` line 196):
every cell is a plain rational. -/
structure FilledRow where
  file_path : String
  aging_score : ℚ
  frequency_score : ℚ
  complexity_score : ℚ
  maintainability_score : ℚ
  coverage_score : ℚ
  deriving DecidableEq

/-- `risk_df.fillna(0.5)` on one row: join-induced `NaN` cells become the
neutral 0.5.  (Cells of columns the frame does not have are also given
0.5 here; the combiner never reads them, exactly as the source never
reads a column `risk_df` does not have.) -/
def fillRow (r : MergedRow) : FilledRow :=
  { file_path := r.file_path
    aging_score := r.aging_score.getD (1/2)
    frequency_score := r.frequency_score.getD (1/2)
    complexity_score := r.complexity_score.getD (1/2)
    maintainability_score := r.maintainability_score.getD (1/2)
    coverage_score := r.coverage_score.getD (1/2) }

/-- The scalar `total_weight` accumulated over the present score columns
(`scorer.py` lines 200-220). -/
def totalWeight (flags : MetricKind → Bool) (w : Weights) : ℚ :=
  (if flags .aging then w.aging else 0)
  + (if flags .frequency then w.frequency else 0)
  + (if flags .complexity then w.complexity else 0)
  + (if flags .maintainability then w.maintainability else 0)
  + (if flags .coverage then w.coverage else 0)

/-- The per-row weighted accumulation `risk_score` of `scorer.py` lines
199-220: aging, frequency and complexity contribute their score,
maintainability and coverage contribute one minus their score. -/
def rowSum (flags : MetricKind → Bool) (w : Weights) (r : FilledRow) : ℚ :=
  (if flags .aging then w.aging * r.aging_score else 0)
  + (if flags .frequency then w.frequency * r.frequency_score else 0)
  + (if flags .complexity then w.complexity * r.complexity_score else 0)
  + (if flags .maintainability then w.maintainability * (1 - r.maintainability_score) else 0)
  + (if flags .coverage then w.coverage * (1 - r.coverage_score) else 0)

/-- One row of the final frame: the filled score cells plus the
`risk_score` column. -/
structure OutRow where
  row : FilledRow
  risk_score : ℚ
  deriving DecidableEq

/-- The final ranked rows of `calculate_risk_score` (`scorer.py` lines
192-229): empty if no score frame was merged; otherwise each merged row
is filled, given `risk_score / total_weight` (or the neutral 0.5 when
`total_weight` is not positive), and the frame is sorted by `risk_score`
descending. -/
def riskRows (now : ℚ) (g : GitMetrics) (s : StaticMetrics) (w : Weights) :
    List OutRow :=
  let risk := mergedRisk now g s
  if risk.rows.isEmpty then []
  else
    let tw := totalWeight risk.flags w
    List.insertionSort (fun a b => b.risk_score ≤ a.risk_score)
      (risk.rows.map fun r =>
        { row := fillRow r
          risk_score := if 0 < tw then rowSum risk.flags w (fillRow r) / tw else 1/2 })

/-- `RiskScorer.calculate_risk_score` (`scorer.py` lines 154-231),
returning the ranked frame together with the post-call contents of the
stored metric dicts (the component methods run on `self.git_metrics` and
`self.static_metrics` and three of them assign columns in place). -/
def calculate_risk_score (now : ℚ) (g : GitMetrics) (s : StaticMetrics)
    (w : Weights) : List OutRow × GitMetrics × StaticMetrics :=
  (riskRows now g s w,
   { g with last_modified := (calculate_aging_score now g.last_modified).1 },
   { s with
     maintainability := (calculate_maintainability_score s.maintainability).1
     test_coverage := (calculate_coverage_score s.test_coverage).1 })

/-- The metric kind `k` is present for the run: its source table is
non-empty (spec §4.4: presence of a kind = its collaborator supplied at
least one row). -/
def present (g : GitMetrics) (s : StaticMetrics) : MetricKind → Prop
  | .aging => g.last_modified ≠ []
  | .frequency => g.change_frequency ≠ []
  | .complexity => s.complexity ≠ []
  | .maintainability => s.maintainability ≠ []
  | .coverage => s.test_coverage ≠ []

/-- The polarity-adjusted contribution of kind `k` read off a filled row:
the score itself for aging, frequency and complexity; one minus the
score for maintainability and coverage. -/
def adjustedScore : MetricKind → FilledRow → ℚ
  | .aging, r => r.aging_score
  | .frequency, r => r.frequency_score
  | .complexity, r => r.complexity_score
  | .maintainability, r => 1 - r.maintainability_score
  | .coverage, r => 1 - r.coverage_score

theorem listMin_le : ∀ {l : List ℚ}, ∀ x ∈ l, listMin l ≤ x := by
  intro l
  induction l with
  | nil => intro x hx; cases hx
  | cons a t ih =>
    intro x hx
    cases t with
    | nil =>
      rcases List.mem_singleton.mp hx with rfl
      simp [listMin]
    | cons b u =>
      rcases List.mem_cons.mp hx with rfl | hx2
      · exact min_le_left _ _
      · exact le_trans (min_le_right _ _) (ih x hx2)

theorem le_listMax : ∀ {l : List ℚ}, ∀ x ∈ l, x ≤ listMax l := by
  intro l
  induction l with
  | nil => intro x hx; cases hx
  | cons a t ih =>
    intro x hx
    cases t with
    | nil =>
      rcases List.mem_singleton.mp hx with rfl
      simp [listMax]
    | cons b u =>
      rcases List.mem_cons.mp hx with rfl | hx2
      · exact le_max_left _ _
      · exact le_trans (ih x hx2) (le_max_right _ _)

theorem listMax_mem : ∀ {l : List ℚ}, l ≠ [] → listMax l ∈ l := by
  intro l
  induction l with
  | nil => intro h; exact absurd rfl h
  | cons a t ih =>
    intro _
    cases t with
    | nil => simp [listMax]
    | cons b u =>
      rcases max_choice a (listMax (b :: u)) with h | h
      · simp [listMax, h]
      · exact List.mem_cons.mpr (Or.inr (by rw [listMax, h]; exact ih (by simp)))

theorem minMaxScale_length (vals : List ℚ) :
    (minMaxScale vals).length = vals.length := by
  simp [minMaxScale]

theorem normalize_metric_length (vals : List ℚ) :
    (normalize_metric vals).length = vals.length := by
  by_cases h : vals.isEmpty
  · rw [List.isEmpty_iff] at h
    simp [normalize_metric, h]
  · simp [normalize_metric, h, minMaxScale_length]

theorem mem_minMaxScale_unit {vals : List ℚ} :
    ∀ y ∈ minMaxScale vals, 0 ≤ y ∧ y ≤ 1 := by
  intro y hy
  simp only [minMaxScale, List.mem_map] at hy
  obtain ⟨x, hx, rfl⟩ := hy
  have hmn := listMin_le x hx
  have hmx := le_listMax x hx
  by_cases hd : listMax vals - listMin vals = 0
  · have hxeq : x = listMin vals :=
      le_antisymm (by linarith [sub_eq_zero.mp hd]) hmn
    simp [hd, hxeq]
  · have hlt : listMin vals < listMax vals :=
      lt_of_le_of_ne (le_trans hmn hmx) (fun h => hd (by rw [h, sub_self]))
    have hpos : 0 < listMax vals - listMin vals := by linarith
    constructor
    · exact div_nonneg (by simp [hd]; linarith) (by simp [hd]; linarith)
    · rw [if_neg hd, div_le_one hpos]
      linarith

theorem mem_normalize_metric_unit {vals : List ℚ} :
    ∀ y ∈ normalize_metric vals, 0 ≤ y ∧ y ≤ 1 := by
  intro y hy
  by_cases h : vals.isEmpty
  · simp [normalize_metric, h] at hy
  · rw [normalize_metric, if_neg h] at hy
    exact mem_minMaxScale_unit y hy

theorem aging_df_values {now : ℚ} {t : List LastModRow}
    (hts : ∀ r ∈ t, r.last_modified ≤ now) :
    ∀ p ∈ (calculate_aging_score now t).2, 0 ≤ p.2 ∧ p.2 ≤ 1 := by
  intro p hp
  by_cases h : t.isEmpty
  · simp [calculate_aging_score, h] at hp
  · rw [calculate_aging_score, if_neg h] at hp
    simp only [List.mem_map] at hp
    obtain ⟨r, hr, rfl⟩ := hp
    simp only
    by_cases hpos : 0 < listMax (t.map fun q => now - q.last_modified)
    · rw [if_pos hpos]
      have hage : now - r.last_modified ≤ listMax (t.map fun q => now - q.last_modified) :=
        le_listMax _ (List.mem_map.mpr ⟨r, hr, rfl⟩)
      constructor
      · exact div_nonneg (by linarith [hts r hr]) (le_of_lt hpos)
      · rw [div_le_one hpos]; exact hage
    · rw [if_neg hpos]; norm_num

theorem zip_df_values {keys : List String} {vals : List ℚ} :
    ∀ p ∈ keys.zip (normalize_metric vals), 0 ≤ p.2 ∧ p.2 ≤ 1 := by
  intro p hp
  exact mem_normalize_metric_unit p.2 (List.of_mem_zip hp).2

theorem aging_df_eq_nil {now : ℚ} {t : List LastModRow} :
    (calculate_aging_score now t).2 = [] ↔ t = [] := by
  by_cases h : t.isEmpty
  · rw [List.isEmpty_iff] at h
    simp [calculate_aging_score, h]
  · rw [calculate_aging_score, if_neg h]
    simp only [List.map_eq_nil_iff]

theorem groupbyMean_length {rows : List (String × ℚ)} :
    (groupbyMean rows).length = (rows.map Prod.fst).dedup.length := by
  rw [groupbyMean]
  simp only [List.length_map]
  exact (List.perm_insertionSort _ _).length_eq

theorem freq_df_eq_nil {cf : List (String × ℚ)} :
    calculate_change_frequency_score cf = [] ↔ cf = [] := by
  by_cases h : cf.isEmpty
  · rw [List.isEmpty_iff] at h
    simp [calculate_change_frequency_score, h]
  · rw [calculate_change_frequency_score, if_neg h]
    rw [List.isEmpty_iff] at h
    constructor
    · intro hz
      exfalso
      have hlen := congrArg List.length hz
      rw [List.length_zip, List.length_map, normalize_metric_length,
        List.length_map, groupbyMean_length] at hlen
      simp only [min_self, List.length_nil] at hlen
      rw [List.length_eq_zero, List.dedup_eq_nil, List.map_eq_nil_iff] at hlen
      exact h hlen
    · intro hz; exact absurd hz h

theorem compl_df_eq_nil {c : List (String × ℚ)} :
    calculate_complexity_score c = [] ↔ c = [] := by
  by_cases h : c.isEmpty
  · rw [List.isEmpty_iff] at h
    simp [calculate_complexity_score, h]
  · rw [calculate_complexity_score, if_neg h]
    rw [List.isEmpty_iff] at h
    constructor
    · intro hz
      exfalso
      have hlen := congrArg List.length hz
      rw [List.length_zip, List.length_map, normalize_metric_length,
        List.length_map, groupbyMean_length] at hlen
      simp only [min_self, List.length_nil] at hlen
      rw [List.length_eq_zero, List.dedup_eq_nil, List.map_eq_nil_iff] at hlen
      exact h hlen
    · intro hz; exact absurd hz h

theorem maint_df_eq_nil {t : List MaintRow} :
    (calculate_maintainability_score t).2 = [] ↔ t = [] := by
  by_cases h : t.isEmpty
  · rw [List.isEmpty_iff] at h
    simp [calculate_maintainability_score, h]
  · rw [calculate_maintainability_score, if_neg h]
    rw [List.isEmpty_iff] at h
    constructor
    · intro hz
      exfalso
      have hlen := congrArg List.length hz
      rw [List.length_zip, List.length_map, normalize_metric_length,
        List.length_map, min_self, List.length_nil, List.length_eq_zero] at hlen
      exact h hlen
    · intro hz; exact absurd hz h

theorem cov_df_eq_nil {t : List CovRow} :
    (calculate_coverage_score t).2 = [] ↔ t = [] := by
  by_cases h : t.isEmpty
  · rw [List.isEmpty_iff] at h
    simp [calculate_coverage_score, h]
  · rw [calculate_coverage_score, if_neg h]
    rw [List.isEmpty_iff] at h
    constructor
    · intro hz
      exfalso
      have hlen := congrArg List.length hz
      rw [List.length_zip, List.length_map, normalize_metric_length,
        List.length_map, min_self, List.length_nil, List.length_eq_zero] at hlen
      exact h hlen
    · intro hz; exact absurd hz h

theorem step_flags (acc : RiskDF) (k : MetricKind) (df : ScoreDf) (q : MetricKind) :
    (step acc k df).flags q = (acc.flags q || (decide (q = k) && !df.isEmpty)) := by
  rw [step]
  by_cases h : df.isEmpty
  · simp [h]
  · rw [if_neg h]
    by_cases hq : q = k
    · simp [hq, h]
    · simp [hq, h]

theorem foldl_flags (q : MetricKind) :
    ∀ (l : List (MetricKind × ScoreDf)) (acc : RiskDF),
      (l.foldl (fun a p => step a p.1 p.2) acc).flags q
        = (acc.flags q || l.any fun p => decide (q = p.1) && !p.2.isEmpty) := by
  intro l
  induction l with
  | nil => intro acc; simp
  | cons p t ih =>
    intro acc
    rw [List.foldl_cons, ih, step_flags]
    simp [Bool.or_assoc]

theorem align_flags (l : List (MetricKind × ScoreDf)) (q : MetricKind) :
    (align l).flags q = l.any fun p => decide (q = p.1) && !p.2.isEmpty := by
  rw [align, foldl_flags]
  simp [emptyRiskDF]

theorem mergeScore_ne_nil {acc : List MergedRow} (k : MetricKind) (df : ScoreDf)
    (h : acc ≠ []) : mergeScore acc k df ≠ [] := by
  obtain ⟨r, rs, rfl⟩ := List.exists_cons_of_ne_nil h
  rw [mergeScore]
  intro hc
  rw [List.append_eq_nil, List.map_cons, List.flatten_cons, List.append_eq_nil] at hc
  have hfirst := hc.1.1
  by_cases hm : ((df.filter fun p => p.1 = r.file_path).isEmpty)
  · rw [if_pos hm] at hfirst
    exact List.cons_ne_nil r [] hfirst
  · rw [if_neg hm] at hfirst
    rw [List.map_eq_nil_iff] at hfirst
    rw [hfirst] at hm
    exact hm rfl

theorem step_rows_isEmpty (acc : RiskDF) (k : MetricKind) (df : ScoreDf) :
    (step acc k df).rows.isEmpty = (acc.rows.isEmpty && df.isEmpty) := by
  rw [step]
  by_cases h : df.isEmpty
  · simp [h]
  · have h' : df.isEmpty = false := Bool.eq_false_iff.mpr h
    rw [if_neg h]
    by_cases ha : acc.rows.isEmpty
    · have hdf : df ≠ [] := by intro hnil; rw [hnil] at h'; simp at h'
      simp [ha, h', hdf]
    · have ha' : acc.rows.isEmpty = false := Bool.eq_false_iff.mpr ha
      have hne : acc.rows ≠ [] := by
        intro hnil; rw [hnil] at ha'; simp at ha'
      have hm : mergeScore acc.rows k df ≠ [] := mergeScore_ne_nil k df hne
      have hm' : (mergeScore acc.rows k df).isEmpty = false := by
        rw [Bool.eq_false_iff]
        intro hx
        exact hm (List.isEmpty_iff.mp hx)
      simp [ha', h', hm']

theorem foldl_rows_isEmpty :
    ∀ (l : List (MetricKind × ScoreDf)) (acc : RiskDF),
      (l.foldl (fun a p => step a p.1 p.2) acc).rows.isEmpty
        = (acc.rows.isEmpty && l.all fun p => p.2.isEmpty) := by
  intro l
  induction l with
  | nil => intro acc; simp
  | cons p t ih =>
    intro acc
    rw [List.foldl_cons, ih, step_rows_isEmpty]
    simp [Bool.and_assoc]

theorem align_rows_isEmpty (l : List (MetricKind × ScoreDf)) :
    (align l).rows.isEmpty = l.all fun p => p.2.isEmpty := by
  rw [align, foldl_rows_isEmpty]
  simp [emptyRiskDF]

theorem mem_mergeScore {acc : List MergedRow} {k : MetricKind} {df : ScoreDf}
    {x : MergedRow} (h : x ∈ mergeScore acc k df) :
    x ∈ acc
    ∨ (∃ r ∈ acc, ∃ m ∈ df, x = setScore k m.2 r)
    ∨ (∃ m ∈ df, x = setScore k m.2 (blankRow m.1)) := by
  rw [mergeScore, List.mem_append] at h
  rcases h with h | h
  · rw [List.mem_flatten] at h
    obtain ⟨sub, hsub, hx⟩ := h
    rw [List.mem_map] at hsub
    obtain ⟨r, hr, rfl⟩ := hsub
    by_cases hm : ((df.filter fun p => p.1 = r.file_path).isEmpty)
    · rw [if_pos hm] at hx
      rcases List.mem_singleton.mp hx with rfl
      exact Or.inl hr
    · rw [if_neg hm, List.mem_map] at hx
      obtain ⟨m, hmmem, rfl⟩ := hx
      exact Or.inr (Or.inl ⟨r, hr, m, List.mem_of_mem_filter hmmem, rfl⟩)
  · rw [List.mem_map] at h
    obtain ⟨m, hmmem, rfl⟩ := h
    exact Or.inr (Or.inr ⟨m, List.mem_of_mem_filter hmmem, rfl⟩)

/-- A `NaN`-or-unit-interval cell. -/
def Opt01 (o : Option ℚ) : Prop := ∀ v, o = some v → 0 ≤ v ∧ v ≤ 1

/-- Every score cell of a merged row is `NaN` or lies in `[0, 1]`. -/
def Row01 (r : MergedRow) : Prop :=
  Opt01 r.aging_score ∧ Opt01 r.frequency_score ∧ Opt01 r.complexity_score
    ∧ Opt01 r.maintainability_score ∧ Opt01 r.coverage_score

theorem Opt01_none : Opt01 none := by
  intro v hv
  cases hv

theorem Opt01_some {v : ℚ} (hv : 0 ≤ v ∧ v ≤ 1) : Opt01 (some v) := by
  intro w hw
  injection hw with hvw
  rw [← hvw]
  exact hv

theorem Row01_blank (fp : String) : Row01 (blankRow fp) :=
  ⟨Opt01_none, Opt01_none, Opt01_none, Opt01_none, Opt01_none⟩

theorem Row01_setScore {r : MergedRow} {v : ℚ} (k : MetricKind)
    (hr : Row01 r) (hv : 0 ≤ v ∧ v ≤ 1) : Row01 (setScore k v r) := by
  obtain ⟨h1, h2, h3, h4, h5⟩ := hr
  cases k
  · exact ⟨Opt01_some hv, h2, h3, h4, h5⟩
  · exact ⟨h1, Opt01_some hv, h3, h4, h5⟩
  · exact ⟨h1, h2, Opt01_some hv, h4, h5⟩
  · exact ⟨h1, h2, h3, Opt01_some hv, h5⟩
  · exact ⟨h1, h2, h3, h4, Opt01_some hv⟩

theorem step_rows_bounded {acc : RiskDF} {k : MetricKind} {df : ScoreDf}
    (hacc : ∀ r ∈ acc.rows, Row01 r) (hdf : ∀ p ∈ df, 0 ≤ p.2 ∧ p.2 ≤ 1) :
    ∀ r ∈ (step acc k df).rows, Row01 r := by
  intro x hx
  rw [step] at hx
  by_cases h : df.isEmpty
  · rw [if_pos h] at hx
    exact hacc x hx
  · rw [if_neg h] at hx
    simp only at hx
    by_cases ha : acc.rows.isEmpty
    · rw [if_pos ha, List.mem_map] at hx
      obtain ⟨m, hm, rfl⟩ := hx
      exact Row01_setScore k (Row01_blank m.1) (hdf m hm)
    · rw [if_neg ha] at hx
      rcases mem_mergeScore hx with hin | ⟨r, hr, m, hm, rfl⟩ | ⟨m, hm, rfl⟩
      · exact hacc x hin
      · exact Row01_setScore k (hacc r hr) (hdf m hm)
      · exact Row01_setScore k (Row01_blank m.1) (hdf m hm)

theorem foldl_rows_bounded :
    ∀ (l : List (MetricKind × ScoreDf)) (acc : RiskDF),
      (∀ r ∈ acc.rows, Row01 r) →
      (∀ p ∈ l, ∀ q ∈ p.2, 0 ≤ q.2 ∧ q.2 ≤ 1) →
      ∀ r ∈ (l.foldl (fun a p => step a p.1 p.2) acc).rows, Row01 r := by
  intro l
  induction l with
  | nil => intro acc hacc _; exact hacc
  | cons p t ih =>
    intro acc hacc hl
    rw [List.foldl_cons]
    exact ih (step acc p.1 p.2)
      (step_rows_bounded hacc (hl p (List.mem_cons_self p t)))
      (fun q hq => hl q (List.mem_cons_of_mem p hq))

theorem align_rows_bounded {l : List (MetricKind × ScoreDf)}
    (h : ∀ p ∈ l, ∀ q ∈ p.2, 0 ≤ q.2 ∧ q.2 ≤ 1) :
    ∀ r ∈ (align l).rows, Row01 r := by
  rw [align]
  exact foldl_rows_bounded l emptyRiskDF (by simp [emptyRiskDF]) h

/-- Every cell of a filled row lies in `[0, 1]`. -/
def Filled01 (fr : FilledRow) : Prop :=
  (0 ≤ fr.aging_score ∧ fr.aging_score ≤ 1)
  ∧ (0 ≤ fr.frequency_score ∧ fr.frequency_score ≤ 1)
  ∧ (0 ≤ fr.complexity_score ∧ fr.complexity_score ≤ 1)
  ∧ (0 ≤ fr.maintainability_score ∧ fr.maintainability_score ≤ 1)
  ∧ (0 ≤ fr.coverage_score ∧ fr.coverage_score ≤ 1)

theorem getD_half_bounds {o : Option ℚ} (h : Opt01 o) :
    0 ≤ o.getD (1/2) ∧ o.getD (1/2) ≤ 1 := by
  cases o with
  | none => norm_num
  | some v => exact h v rfl

theorem fillRow_bounded {r : MergedRow} (h : Row01 r) : Filled01 (fillRow r) :=
  ⟨getD_half_bounds h.1, getD_half_bounds h.2.1, getD_half_bounds h.2.2.1,
   getD_half_bounds h.2.2.2.1, getD_half_bounds h.2.2.2.2⟩

theorem contrib_bounds {b : Bool} {wk c : ℚ} (hw : 0 ≤ wk) (hc : 0 ≤ c ∧ c ≤ 1) :
    0 ≤ (if b then wk * c else 0)
    ∧ (if b then wk * c else 0) ≤ (if b then wk else 0) := by
  cases b
  · simp
  · simp only [if_true]
    exact ⟨mul_nonneg hw hc.1, mul_le_of_le_one_right hw hc.2⟩

theorem combine_bounded {flags : MetricKind → Bool} {w : Weights} {fr : FilledRow}
    (hw : 0 ≤ w.aging ∧ 0 ≤ w.frequency ∧ 0 ≤ w.complexity
      ∧ 0 ≤ w.maintainability ∧ 0 ≤ w.coverage)
    (hf : Filled01 fr) :
    0 ≤ (if 0 < totalWeight flags w then rowSum flags w fr / totalWeight flags w else 1/2)
    ∧ (if 0 < totalWeight flags w then rowSum flags w fr / totalWeight flags w else 1/2) ≤ 1 := by
  have c1 := contrib_bounds (b := flags .aging) hw.1 hf.1
  have c2 := contrib_bounds (b := flags .frequency) hw.2.1 hf.2.1
  have c3 := contrib_bounds (b := flags .complexity) hw.2.2.1 hf.2.2.1
  have hm4 : 0 ≤ 1 - fr.maintainability_score ∧ 1 - fr.maintainability_score ≤ 1 := by
    constructor
    · linarith [hf.2.2.2.1.2]
    · linarith [hf.2.2.2.1.1]
  have hm5 : 0 ≤ 1 - fr.coverage_score ∧ 1 - fr.coverage_score ≤ 1 := by
    constructor
    · linarith [hf.2.2.2.2.2]
    · linarith [hf.2.2.2.2.1]
  have c4 := contrib_bounds (b := flags .maintainability) hw.2.2.2.1 hm4
  have c5 := contrib_bounds (b := flags .coverage) hw.2.2.2.2 hm5
  have hsum0 : 0 ≤ rowSum flags w fr := by
    rw [rowSum]
    have := c1.1; have := c2.1; have := c3.1; have := c4.1; have := c5.1
    linarith
  have hsumle : rowSum flags w fr ≤ totalWeight flags w := by
    rw [rowSum, totalWeight]
    have := c1.2; have := c2.2; have := c3.2; have := c4.2; have := c5.2
    linarith
  by_cases ht : 0 < totalWeight flags w
  · rw [if_pos ht]
    exact ⟨div_nonneg hsum0 (le_of_lt ht), (div_le_one ht).mpr hsumle⟩
  · rw [if_neg ht]
    norm_num

theorem freq_df_values {cf : List (String × ℚ)} :
    ∀ p ∈ calculate_change_frequency_score cf, 0 ≤ p.2 ∧ p.2 ≤ 1 := by
  intro p hp
  by_cases h : cf.isEmpty
  · rw [calculate_change_frequency_score, if_pos h] at hp
    cases hp
  · rw [calculate_change_frequency_score, if_neg h] at hp
    exact zip_df_values p hp

theorem compl_df_values {c : List (String × ℚ)} :
    ∀ p ∈ calculate_complexity_score c, 0 ≤ p.2 ∧ p.2 ≤ 1 := by
  intro p hp
  by_cases h : c.isEmpty
  · rw [calculate_complexity_score, if_pos h] at hp
    cases hp
  · rw [calculate_complexity_score, if_neg h] at hp
    exact zip_df_values p hp

theorem maint_df_values {t : List MaintRow} :
    ∀ p ∈ (calculate_maintainability_score t).2, 0 ≤ p.2 ∧ p.2 ≤ 1 := by
  intro p hp
  by_cases h : t.isEmpty
  · rw [calculate_maintainability_score, if_pos h] at hp
    cases hp
  · rw [calculate_maintainability_score, if_neg h] at hp
    exact zip_df_values p hp

theorem cov_df_values {t : List CovRow} :
    ∀ p ∈ (calculate_coverage_score t).2, 0 ≤ p.2 ∧ p.2 ≤ 1 := by
  intro p hp
  by_cases h : t.isEmpty
  · rw [calculate_coverage_score, if_pos h] at hp
    cases hp
  · rw [calculate_coverage_score, if_neg h] at hp
    exact zip_df_values p hp

theorem mergedRisk_rows_bounded {now : ℚ} {g : GitMetrics} {s : StaticMetrics}
    (hts : ∀ r ∈ g.last_modified, r.last_modified ≤ now) :
    ∀ r ∈ (mergedRisk now g s).rows, Row01 r := by
  rw [mergedRisk]
  apply align_rows_bounded
  intro p hp
  simp only [List.mem_cons, List.not_mem_nil, or_false] at hp
  rcases hp with rfl | rfl | rfl | rfl | rfl
  · exact aging_df_values hts
  · exact freq_df_values
  · exact compl_df_values
  · exact maint_df_values
  · exact cov_df_values

theorem mem_riskRows {now : ℚ} {g : GitMetrics} {s : StaticMetrics} {w : Weights}
    {x : OutRow} (h : x ∈ riskRows now g s w) :
    ∃ m ∈ (mergedRisk now g s).rows,
      x = { row := fillRow m
            risk_score :=
              if 0 < totalWeight (mergedRisk now g s).flags w then
                rowSum (mergedRisk now g s).flags w (fillRow m)
                  / totalWeight (mergedRisk now g s).flags w
              else 1/2 } := by
  rw [riskRows] at h
  by_cases he : (mergedRisk now g s).rows.isEmpty
  · rw [if_pos he] at h
    cases h
  · rw [if_neg he] at h
    simp only at h
    rw [List.mem_insertionSort, List.mem_map] at h
    obtain ⟨m, hm, rfl⟩ := h
    exact ⟨m, hm, rfl⟩

/-- C2 (amended): for every input whose metric tables satisfy the data
contract AND whose `last_modified` timestamps do not lie in the future of
the clock (so every computed age is non-negative), and every weight map
assigning a non-negative weight to each metric kind, every row of the
table returned by `calculate_risk_score` has `risk_score` in `[0, 1]`.
(Without the no-future-timestamp proviso the claim is false: see the
counterexample.) -/
theorem risk_score_unit_interval_amended (now : ℚ) (g : GitMetrics)
    (s : StaticMetrics) (w : Weights)
    (hts : ∀ r ∈ g.last_modified, r.last_modified ≤ now)
    (hw : 0 ≤ w.aging ∧ 0 ≤ w.frequency ∧ 0 ≤ w.complexity
      ∧ 0 ≤ w.maintainability ∧ 0 ≤ w.coverage) :
    ∀ x ∈ (calculate_risk_score now g s w).1,
      0 ≤ x.risk_score ∧ x.risk_score ≤ 1 := by
  intro x hx
  obtain ⟨m, hm, rfl⟩ := mem_riskRows hx
  exact combine_bounded hw
    (fillRow_bounded (mergedRisk_rows_bounded hts m hm))

/-- C2 witness: a run over a one-file `last_modified` table with the
default weights; the amended theorem applies and bounds its (unique)
risk score. -/
theorem risk_score_unit_interval_amended_witness :
    0 ≤ ((⟨⟨"a", 1, 1/2, 1/2, 1/2, 1/2⟩, 1⟩ : OutRow)).risk_score
    ∧ ((⟨⟨"a", 1, 1/2, 1/2, 1/2, 1/2⟩, 1⟩ : OutRow)).risk_score ≤ 1 := by
  have hout : (calculate_risk_score 2
      { last_modified := [{ file_path := "a", last_modified := 1 }],
        change_frequency := [] }
      { complexity := [], maintainability := [], test_coverage := [] }
      defaultWeights).1
      = [(⟨⟨"a", 1, 1/2, 1/2, 1/2, 1/2⟩, 1⟩ : OutRow)] := by
    simp only [calculate_risk_score, riskRows, mergedRisk, align, step,
      calculate_aging_score, calculate_change_frequency_score,
      calculate_complexity_score, calculate_maintainability_score,
      calculate_coverage_score, normalize_metric, minMaxScale, listMin, listMax,
      emptyRiskDF, startRow, blankRow, setScore, fillRow, totalWeight, rowSum,
      defaultWeights, List.foldl, List.isEmpty, List.map, List.zipWith, List.zip,
      List.insertionSort, List.orderedInsert, reduceCtorEq, reduceIte]
    norm_num
  exact risk_score_unit_interval_amended 2
    { last_modified := [{ file_path := "a", last_modified := 1 }],
      change_frequency := [] }
    { complexity := [], maintainability := [], test_coverage := [] }
    defaultWeights
    (by intro r hr; rcases List.mem_singleton.mp hr with rfl; norm_num)
    (by norm_num [defaultWeights])
    ((⟨⟨"a", 1, 1/2, 1/2, 1/2, 1/2⟩, 1⟩ : OutRow))
    (by rw [hout]; exact List.mem_singleton.mpr rfl)

/-- C2 counterexample: the claim as stated is false.  With the default
(non-negative) weights and a `last_modified` table satisfying the data
contract (unique non-null file paths, one numeric timestamp column) in
which file `b` carries a timestamp one day in the future of the clock,
file `b` receives `aging_score = -1` and hence `risk_score = -1 < 0`. -/
theorem risk_score_unit_interval_cex :
    ∃ x ∈ (calculate_risk_score 0
      { last_modified := [{ file_path := "a", last_modified := -1 },
                          { file_path := "b", last_modified := 1 }],
        change_frequency := [] }
      { complexity := [], maintainability := [], test_coverage := [] }
      defaultWeights).1, x.risk_score < 0 := by
  have hout : (calculate_risk_score 0
      { last_modified := [{ file_path := "a", last_modified := -1 },
                          { file_path := "b", last_modified := 1 }],
        change_frequency := [] }
      { complexity := [], maintainability := [], test_coverage := [] }
      defaultWeights).1
      = [(⟨⟨"a", 1, 1/2, 1/2, 1/2, 1/2⟩, 1⟩ : OutRow),
         (⟨⟨"b", -1, 1/2, 1/2, 1/2, 1/2⟩, -1⟩ : OutRow)] := by
    simp only [calculate_risk_score, riskRows, mergedRisk, align, step,
      calculate_aging_score, calculate_change_frequency_score,
      calculate_complexity_score, calculate_maintainability_score,
      calculate_coverage_score, normalize_metric, minMaxScale, listMin, listMax,
      emptyRiskDF, startRow, blankRow, setScore, fillRow, totalWeight, rowSum,
      defaultWeights, List.foldl, List.isEmpty, List.map, List.zipWith, List.zip,
      List.insertionSort, List.orderedInsert, reduceCtorEq, reduceIte]
    norm_num
  refine ⟨(⟨⟨"b", -1, 1/2, 1/2, 1/2, 1/2⟩, -1⟩ : OutRow), ?_, ?_⟩
  · rw [hout]
    exact List.mem_cons_of_mem _ (List.mem_singleton.mpr rfl)
  · norm_num

theorem mergedRisk_flags_aging (now : ℚ) (g : GitMetrics) (s : StaticMetrics) :
    (mergedRisk now g s).flags .aging
      = !((calculate_aging_score now g.last_modified).2.isEmpty) := by
  rw [mergedRisk, align_flags]
  simp

theorem mergedRisk_flags_frequency (now : ℚ) (g : GitMetrics) (s : StaticMetrics) :
    (mergedRisk now g s).flags .frequency
      = !((calculate_change_frequency_score g.change_frequency).isEmpty) := by
  rw [mergedRisk, align_flags]
  simp

theorem mergedRisk_flags_complexity (now : ℚ) (g : GitMetrics) (s : StaticMetrics) :
    (mergedRisk now g s).flags .complexity
      = !((calculate_complexity_score s.complexity).isEmpty) := by
  rw [mergedRisk, align_flags]
  simp

theorem mergedRisk_flags_maintainability (now : ℚ) (g : GitMetrics) (s : StaticMetrics) :
    (mergedRisk now g s).flags .maintainability
      = !((calculate_maintainability_score s.maintainability).2.isEmpty) := by
  rw [mergedRisk, align_flags]
  simp

theorem mergedRisk_flags_coverage (now : ℚ) (g : GitMetrics) (s : StaticMetrics) :
    (mergedRisk now g s).flags .coverage
      = !((calculate_coverage_score s.test_coverage).2.isEmpty) := by
  rw [mergedRisk, align_flags]
  simp

theorem riskRows_nil_of_empty {now : ℚ} {g : GitMetrics} {s : StaticMetrics}
    {w : Weights} (h1 : g.last_modified = []) (h2 : g.change_frequency = [])
    (h3 : s.complexity = []) (h4 : s.maintainability = [])
    (h5 : s.test_coverage = []) :
    (calculate_risk_score now g s w).1 = [] := by
  have hd1 : (calculate_aging_score now g.last_modified).2 = [] :=
    aging_df_eq_nil.mpr h1
  have hd2 : calculate_change_frequency_score g.change_frequency = [] :=
    freq_df_eq_nil.mpr h2
  have hd3 : calculate_complexity_score s.complexity = [] :=
    compl_df_eq_nil.mpr h3
  have hd4 : (calculate_maintainability_score s.maintainability).2 = [] :=
    maint_df_eq_nil.mpr h4
  have hd5 : (calculate_coverage_score s.test_coverage).2 = [] :=
    cov_df_eq_nil.mpr h5
  have hrows : (mergedRisk now g s).rows.isEmpty = true := by
    rw [mergedRisk, align_rows_isEmpty]
    simp [hd1, hd2, hd3, hd4, hd5]
  show riskRows now g s w = []
  rw [riskRows, if_pos hrows]

/-- C10: if every metric table is empty, `calculate_risk_score` still
completes; its result is the empty frame (the source returns the empty
`pd.DataFrame()` at line 193), so every `risk_score` in the result is —
vacuously — the neutral 0.5. -/
theorem all_tables_empty_neutral (now : ℚ) (g : GitMetrics) (s : StaticMetrics)
    (w : Weights) (h1 : g.last_modified = []) (h2 : g.change_frequency = [])
    (h3 : s.complexity = []) (h4 : s.maintainability = [])
    (h5 : s.test_coverage = []) :
    (calculate_risk_score now g s w).1 = []
    ∧ ∀ x ∈ (calculate_risk_score now g s w).1, x.risk_score = 1/2 := by
  have hmain : (calculate_risk_score now g s w).1 = [] :=
    riskRows_nil_of_empty h1 h2 h3 h4 h5
  refine ⟨hmain, ?_⟩
  intro x hx
  rw [hmain] at hx
  cases hx

/-- C10 witness: the all-empty input. -/
theorem all_tables_empty_neutral_witness :
    (calculate_risk_score 0 { last_modified := [], change_frequency := [] }
      { complexity := [], maintainability := [], test_coverage := [] }
      defaultWeights).1 = [] :=
  (all_tables_empty_neutral 0
    { last_modified := [], change_frequency := [] }
    { complexity := [], maintainability := [], test_coverage := [] }
    defaultWeights rfl rfl rfl rfl rfl).1

theorem flag_weight_zero {α : Type} {b : Bool} {df : List α} {wk : ℚ}
    (hb : b = !df.isEmpty) (hz : df ≠ [] → wk = 0) :
    (if b then wk else 0) = 0 := by
  cases df with
  | nil => rw [hb]; simp
  | cons a t =>
    rw [hb]
    simp only [List.isEmpty_cons, Bool.not_false, if_true]
    exact hz (List.cons_ne_nil a t)

/-- C5: if at least one metric score column is present in the merged
table but every present metric kind has weight 0, the effective total
weight is 0 and `calculate_risk_score` completes (no division fault)
with every row assigned the neutral `risk_score = 0.5`
(`scorer.py` lines 222-226). -/
theorem zero_effective_weight_neutral (now : ℚ) (g : GitMetrics)
    (s : StaticMetrics) (w : Weights)
    (ha : g.last_modified ≠ [] → w.aging = 0)
    (hf : g.change_frequency ≠ [] → w.frequency = 0)
    (hc : s.complexity ≠ [] → w.complexity = 0)
    (hm : s.maintainability ≠ [] → w.maintainability = 0)
    (hv : s.test_coverage ≠ [] → w.coverage = 0)
    (hpresent : g.last_modified ≠ [] ∨ g.change_frequency ≠ []
      ∨ s.complexity ≠ [] ∨ s.maintainability ≠ [] ∨ s.test_coverage ≠ []) :
    (calculate_risk_score now g s w).1 ≠ []
    ∧ ∀ x ∈ (calculate_risk_score now g s w).1, x.risk_score = 1/2 := by
  have t1 := flag_weight_zero (mergedRisk_flags_aging now g s)
    (fun hdf => ha (fun hnil => hdf (aging_df_eq_nil.mpr hnil)))
  have t2 := flag_weight_zero (mergedRisk_flags_frequency now g s)
    (fun hdf => hf (fun hnil => hdf (freq_df_eq_nil.mpr hnil)))
  have t3 := flag_weight_zero (mergedRisk_flags_complexity now g s)
    (fun hdf => hc (fun hnil => hdf (compl_df_eq_nil.mpr hnil)))
  have t4 := flag_weight_zero (mergedRisk_flags_maintainability now g s)
    (fun hdf => hm (fun hnil => hdf (maint_df_eq_nil.mpr hnil)))
  have t5 := flag_weight_zero (mergedRisk_flags_coverage now g s)
    (fun hdf => hv (fun hnil => hdf (cov_df_eq_nil.mpr hnil)))
  have htw : totalWeight (mergedRisk now g s).flags w = 0 := by
    rw [totalWeight, t1, t2, t3, t4, t5]
    norm_num
  have hrows : (mergedRisk now g s).rows.isEmpty = false := by
    rw [mergedRisk, align_rows_isEmpty]
    rcases hpresent with hp | hp | hp | hp | hp
    · have : (calculate_aging_score now g.last_modified).2 ≠ [] := by
        intro hnil; exact hp (aging_df_eq_nil.mp hnil)
      simp [List.isEmpty_iff, this]
    · have : calculate_change_frequency_score g.change_frequency ≠ [] := by
        intro hnil; exact hp (freq_df_eq_nil.mp hnil)
      simp [List.isEmpty_iff, this]
    · have : calculate_complexity_score s.complexity ≠ [] := by
        intro hnil; exact hp (compl_df_eq_nil.mp hnil)
      simp [List.isEmpty_iff, this]
    · have : (calculate_maintainability_score s.maintainability).2 ≠ [] := by
        intro hnil; exact hp (maint_df_eq_nil.mp hnil)
      simp [List.isEmpty_iff, this]
    · have : (calculate_coverage_score s.test_coverage).2 ≠ [] := by
        intro hnil; exact hp (cov_df_eq_nil.mp hnil)
      simp [List.isEmpty_iff, this]
  constructor
  · show riskRows now g s w ≠ []
    rw [riskRows, if_neg (by rw [hrows]; exact Bool.false_ne_true)]
    intro hsort
    have hlen := congrArg List.length hsort
    rw [(List.perm_insertionSort _ _).length_eq, List.length_map,
      List.length_nil, List.length_eq_zero] at hlen
    rw [hlen] at hrows
    simp at hrows
  · intro x hx
    obtain ⟨m, _, rfl⟩ := mem_riskRows hx
    simp only [htw]
    norm_num

/-- C5 witness: a one-row maintainability table with the all-zero weight
map; the run completes and the output is non-empty. -/
theorem zero_effective_weight_neutral_witness :
    (calculate_risk_score 0 { last_modified := [], change_frequency := [] }
      { complexity := [],
        maintainability := [{ file_path := "a", maintainability_index := 1 }],
        test_coverage := [] }
      (Weights.mk 0 0 0 0 0)).1 ≠ [] :=
  (zero_effective_weight_neutral 0
    { last_modified := [], change_frequency := [] }
    { complexity := [],
      maintainability := [{ file_path := "a", maintainability_index := 1 }],
      test_coverage := [] }
    (Weights.mk 0 0 0 0 0)
    (fun _ => rfl) (fun _ => rfl) (fun _ => rfl) (fun _ => rfl) (fun _ => rfl)
    (Or.inr (Or.inr (Or.inr (Or.inl (List.cons_ne_nil _ _)))))).1

/-- C3: on a non-empty column, `_normalize_metric` performs min-max
scaling: each output is `(value - min) / (max - min)`, so a row holding
the minimum maps to 0 and a row holding the maximum maps to 1; and when
`max = min` (all rows equal, including the single-row case) every output
is 0 rather than a division fault. -/
theorem normalize_metric_minmax (vals : List ℚ) (h : vals ≠ []) :
    (listMin vals ≠ listMax vals →
      normalize_metric vals
        = vals.map (fun x => (x - listMin vals) / (listMax vals - listMin vals))
      ∧ (∀ i : ℕ, vals[i]? = some (listMin vals) → (normalize_metric vals)[i]? = some 0)
      ∧ (∀ i : ℕ, vals[i]? = some (listMax vals) → (normalize_metric vals)[i]? = some 1))
    ∧ (listMin vals = listMax vals → ∀ y ∈ normalize_metric vals, y = 0) := by
  have he : ¬ vals.isEmpty = true := by
    rw [List.isEmpty_iff]
    exact h
  rw [normalize_metric, if_neg he]
  constructor
  · intro hne
    have hd : listMax vals - listMin vals ≠ 0 := sub_ne_zero.mpr (Ne.symm hne)
    have hform : minMaxScale vals
        = vals.map fun x => (x - listMin vals) / (listMax vals - listMin vals) := by
      rw [minMaxScale]
      simp only [if_neg hd]
    refine ⟨hform, ?_, ?_⟩
    · intro i hi
      rw [hform, List.getElem?_map, hi, Option.map_some']
      simp
    · intro i hi
      rw [hform, List.getElem?_map, hi, Option.map_some']
      rw [Option.some_inj]
      exact div_self hd
  · intro heq y hy
    rw [minMaxScale, List.mem_map] at hy
    obtain ⟨x, hx, rfl⟩ := hy
    have hxeq : x = listMin vals :=
      le_antisymm (heq ▸ le_listMax x hx) (listMin_le x hx)
    rw [hxeq, sub_self, zero_div]

/-- C3 witness: the column `[10, 30, 20]` is non-empty and not constant;
its second entry holds the maximum 30 and is scaled to 1. -/
theorem normalize_metric_minmax_witness :
    (normalize_metric [10, 30, 20])[1]? = some 1 := by
  have hmin : listMin [10, 30, 20] = (10:ℚ) := by
    rw [listMin, listMin, listMin]
    rw [min_def, min_def]
    norm_num
  have hmax : listMax [10, 30, 20] = (30:ℚ) := by
    rw [listMax, listMax, listMax]
    rw [max_def, max_def]
    norm_num
  exact ((normalize_metric_minmax [10, 30, 20] (List.cons_ne_nil _ _)).1
    (by rw [hmin, hmax]; norm_num)).2.2 1 (by rw [hmax]; rfl)

/-- C4 counterexample: the claim is false.  With clock `now = 2` and
timestamps 1 and 0, file `a` has the minimum age (1 day) and file `b`
the maximum (2 days); `calculate_aging_score` gives `a` the score
`1/2 ≠ 0`, whereas min-max normalization would give the minimum-age row
the score 0. -/
theorem aging_score_not_minmax_cex :
    (calculate_aging_score 2 [{ file_path := "a", last_modified := 1 },
                              { file_path := "b", last_modified := 0 }]).2
      = [("a", 1/2), ("b", 1)] ∧ ((1:ℚ)/2 ≠ 0) := by
  constructor
  · simp only [calculate_aging_score, listMax, List.isEmpty_cons, List.map,
      reduceIte]
    norm_num [max_def]
  · norm_num

/-- C4 (amended): on a non-empty `last_modified` table the aging score
column is `age_days / max_age`, not a min-max normalization: when
`max_age > 0` some (maximum-age) row maps to 1.0 while the minimum-age
row maps to `min_age / max_age` (which is 0 only if the youngest file
has age 0); when `max_age ≤ 0` every row maps to 0.0. -/
theorem aging_score_divides_by_max (now : ℚ) (lm : List LastModRow)
    (h : lm ≠ []) :
    ((calculate_aging_score now lm).2
      = lm.map fun r => (r.file_path,
          if 0 < listMax (lm.map fun q => now - q.last_modified)
          then (now - r.last_modified) / listMax (lm.map fun q => now - q.last_modified)
          else 0))
    ∧ (0 < listMax (lm.map fun q => now - q.last_modified) →
        ∃ p ∈ (calculate_aging_score now lm).2, p.2 = 1)
    ∧ (¬ 0 < listMax (lm.map fun q => now - q.last_modified) →
        ∀ p ∈ (calculate_aging_score now lm).2, p.2 = 0) := by
  have he : ¬ lm.isEmpty = true := by
    rw [List.isEmpty_iff]
    exact h
  refine ⟨by rw [calculate_aging_score, if_neg he], ?_, ?_⟩
  · intro hpos
    have hmem : listMax (lm.map fun q => now - q.last_modified)
        ∈ lm.map fun q => now - q.last_modified :=
      listMax_mem (by simp [h])
    rw [List.mem_map] at hmem
    obtain ⟨r, hr, hrmax⟩ := hmem
    refine ⟨(r.file_path,
      if 0 < listMax (lm.map fun q => now - q.last_modified)
      then (now - r.last_modified) / listMax (lm.map fun q => now - q.last_modified)
      else 0), ?_, ?_⟩
    · rw [calculate_aging_score, if_neg he]
      exact List.mem_map.mpr ⟨r, hr, rfl⟩
    · simp only [if_pos hpos]
      rw [hrmax]
      exact div_self (ne_of_gt hpos)
  · intro hneg p hp
    rw [calculate_aging_score, if_neg he] at hp
    rw [List.mem_map] at hp
    obtain ⟨r, _, rfl⟩ := hp
    simp only [if_neg hneg]

/-- C4 witness for the amended claim: the two-row table of the
counterexample has `max_age = 2 > 0`, so some row is scored exactly 1. -/
theorem aging_score_divides_by_max_witness :
    ∃ p ∈ (calculate_aging_score 2 [{ file_path := "a", last_modified := 1 },
                                    { file_path := "b", last_modified := 0 }]).2,
      p.2 = 1 := by
  refine (aging_score_divides_by_max 2 _ (List.cons_ne_nil _ _)).2.1 ?_
  simp only [List.map, listMax]
  rw [max_def]
  norm_num

theorem step_nil_df (acc : RiskDF) (k : MetricKind) : step acc k [] = acc := by
  simp [step]

theorem setScore_file_path (k : MetricKind) (v : ℚ) (r : MergedRow) :
    (setScore k v r).file_path = r.file_path := by
  cases k <;> rfl

theorem step_empty_rows (k : MetricKind) {df : ScoreDf} (hdf : df ≠ []) :
    (step emptyRiskDF k df).rows = df.map (startRow k) := by
  rw [step, if_neg (by rw [List.isEmpty_iff]; exact hdf)]
  simp [emptyRiskDF]

theorem maint_df_keys (t : List MaintRow) :
    (calculate_maintainability_score t).2.map Prod.fst = t.map fun r => r.file_path := by
  by_cases h : t.isEmpty
  · rw [List.isEmpty_iff] at h
    simp [calculate_maintainability_score, h]
  · rw [calculate_maintainability_score, if_neg h]
    apply List.map_fst_zip
    rw [normalize_metric_length, List.length_map, List.length_map]

/-- C6 counterexample: the claim is false.  A maintainability table with
the duplicate file path `a` (twice) violates the data contract, yet
`calculate_risk_score` raises no data-contract violation: it completes
and returns a two-row ranking, both rows for file `a`. -/
theorem duplicates_produce_ranking_cex :
    ((calculate_risk_score 0 { last_modified := [], change_frequency := [] }
        { complexity := [],
          maintainability := [{ file_path := "a", maintainability_index := 1 },
                              { file_path := "a", maintainability_index := 2 }],
          test_coverage := [] }
        defaultWeights).1.map fun x => x.row.file_path) = ["a", "a"] := by
  simp only [calculate_risk_score, riskRows, mergedRisk, align, step,
    calculate_aging_score, calculate_change_frequency_score,
    calculate_complexity_score, calculate_maintainability_score,
    calculate_coverage_score, normalize_metric, minMaxScale, listMin, listMax,
    emptyRiskDF, startRow, blankRow, setScore, fillRow, totalWeight, rowSum,
    defaultWeights, List.foldl, List.isEmpty, List.map, List.zipWith, List.zip,
    List.insertionSort, List.orderedInsert, reduceCtorEq, reduceIte]
  norm_num

/-- C6 (amended): the engine performs no data-contract validation.  When
the maintainability table is the only (possibly) non-empty one, the
output carries exactly one risk record per input row — file paths
preserved as a multiset, duplicates included — instead of failing fast.
(A table genuinely missing its `file_path` column would surface as a
pandas `KeyError` from the collaborator column access, not as an
engine-level data-contract check.) -/
theorem duplicates_join_silently (now : ℚ) (g : GitMetrics) (s : StaticMetrics)
    (w : Weights) (h1 : g.last_modified = []) (h2 : g.change_frequency = [])
    (h3 : s.complexity = []) (h4 : s.test_coverage = []) :
    List.Perm ((calculate_risk_score now g s w).1.map fun x => x.row.file_path)
      (s.maintainability.map fun r => r.file_path) := by
  have hd1 : (calculate_aging_score now g.last_modified).2 = [] :=
    aging_df_eq_nil.mpr h1
  have hd2 : calculate_change_frequency_score g.change_frequency = [] :=
    freq_df_eq_nil.mpr h2
  have hd3 : calculate_complexity_score s.complexity = [] :=
    compl_df_eq_nil.mpr h3
  have hd5 : (calculate_coverage_score s.test_coverage).2 = [] :=
    cov_df_eq_nil.mpr h4
  by_cases hmt : s.maintainability = []
  · have hout := @riskRows_nil_of_empty now g s w h1 h2 h3 hmt h4
    rw [hout, hmt]
    exact List.Perm.refl _
  · have hd4 : (calculate_maintainability_score s.maintainability).2 ≠ [] := by
      intro hnil
      exact hmt (maint_df_eq_nil.mp hnil)
    have hrows : (mergedRisk now g s).rows
        = ((calculate_maintainability_score s.maintainability).2).map
            (startRow .maintainability) := by
      rw [mergedRisk, align, List.foldl_cons, List.foldl_cons, List.foldl_cons,
        List.foldl_cons, List.foldl_cons, List.foldl_nil,
        hd1, hd2, hd3, hd5, step_nil_df, step_nil_df, step_nil_df, step_nil_df,
        step_empty_rows _ hd4]
    have hne : ¬ (mergedRisk now g s).rows.isEmpty = true := by
      rw [List.isEmpty_iff, hrows]
      intro hnil
      rw [List.map_eq_nil_iff] at hnil
      exact hd4 hnil
    show List.Perm ((riskRows now g s w).map fun x => x.row.file_path) _
    rw [riskRows, if_neg hne]
    simp only
    have hperm := (List.perm_insertionSort
      (fun a b : OutRow => b.risk_score ≤ a.risk_score)
      ((mergedRisk now g s).rows.map fun r =>
        { row := fillRow r
          risk_score :=
            if 0 < totalWeight (mergedRisk now g s).flags w then
              rowSum (mergedRisk now g s).flags w (fillRow r)
                / totalWeight (mergedRisk now g s).flags w
            else 1/2 })).map fun x => x.row.file_path
    refine hperm.trans ?_
    rw [List.map_map, hrows, List.map_map]
    have hfun : (((fun x : OutRow => x.row.file_path) ∘
        (fun r : MergedRow =>
          OutRow.mk (fillRow r)
            (if 0 < totalWeight (mergedRisk now g s).flags w then
              rowSum (mergedRisk now g s).flags w (fillRow r)
                / totalWeight (mergedRisk now g s).flags w
            else 1/2))) ∘ startRow .maintainability)
        = (Prod.fst : String × ℚ → String) := by
      funext p
      show (fillRow (startRow .maintainability p)).file_path = p.1
      rfl
    rw [hfun, maint_df_keys]

/-- C6 witness for the amended claim: the duplicated two-row
maintainability table of the counterexample; the output file paths are a
permutation of the duplicated input file paths. -/
theorem duplicates_join_silently_witness :
    List.Perm ((calculate_risk_score 0 { last_modified := [], change_frequency := [] }
        { complexity := [],
          maintainability := [{ file_path := "a", maintainability_index := 1 },
                              { file_path := "a", maintainability_index := 2 }],
          test_coverage := [] }
        defaultWeights).1.map fun x => x.row.file_path)
      (List.map (fun r : MaintRow => r.file_path)
        [{ file_path := "a", maintainability_index := 1 },
         { file_path := "a", maintainability_index := 2 }]) :=
  duplicates_join_silently 0
    { last_modified := [], change_frequency := [] }
    { complexity := [],
      maintainability := [{ file_path := "a", maintainability_index := 1 },
                          { file_path := "a", maintainability_index := 2 }],
      test_coverage := [] }
    defaultWeights rfl rfl rfl rfl

theorem aging_mutates {now : ℚ} {t : List LastModRow} (hne : t ≠ [])
    (hfresh : ∀ r ∈ t, r.age_days = none) :
    (calculate_aging_score now t).1 ≠ t := by
  obtain ⟨x, xs, rfl⟩ := List.exists_cons_of_ne_nil hne
  rw [calculate_aging_score, if_neg (by simp)]
  intro heq
  simp only [List.map_cons, List.cons.injEq] at heq
  have hage := congrArg LastModRow.age_days heq.1
  simp only at hage
  rw [hfresh x (List.mem_cons_self x xs)] at hage
  cases hage

theorem maint_mutates {t : List MaintRow} (hne : t ≠ [])
    (hfresh : ∀ r ∈ t, r.maintainability_score = none) :
    (calculate_maintainability_score t).1 ≠ t := by
  obtain ⟨x, xs, rfl⟩ := List.exists_cons_of_ne_nil hne
  rw [calculate_maintainability_score, if_neg (by simp)]
  intro heq
  simp only at heq
  cases hsc : normalize_metric ((x :: xs).map fun r => r.maintainability_index) with
  | nil =>
    have hlen := congrArg List.length hsc
    rw [normalize_metric_length] at hlen
    simp at hlen
  | cons v vs =>
    rw [hsc, List.zipWith_cons_cons, List.cons.injEq] at heq
    have hsome := congrArg MaintRow.maintainability_score heq.1
    simp only at hsome
    rw [hfresh x (List.mem_cons_self x xs)] at hsome
    cases hsome

theorem cov_mutates {t : List CovRow} (hne : t ≠ [])
    (hfresh : ∀ r ∈ t, r.coverage_score = none) :
    (calculate_coverage_score t).1 ≠ t := by
  obtain ⟨x, xs, rfl⟩ := List.exists_cons_of_ne_nil hne
  rw [calculate_coverage_score, if_neg (by simp)]
  intro heq
  simp only at heq
  cases hsc : normalize_metric ((x :: xs).map fun r => r.line_coverage) with
  | nil =>
    have hlen := congrArg List.length hsc
    rw [normalize_metric_length] at hlen
    simp at hlen
  | cons v vs =>
    rw [hsc, List.zipWith_cons_cons, List.cons.injEq] at heq
    have hsome := congrArg CovRow.coverage_score heq.1
    simp only at hsome
    rw [hfresh x (List.mem_cons_self x xs)] at hsome
    cases hsome

/-- C8 counterexample: the claim is false.  A one-row maintainability
table (fresh from the collaborator, so its in-place score column is
unset) is observably mutated by `calculate_risk_score`: afterwards the
stored `static_metrics['maintainability']` table carries the
`maintainability_score` column the engine assigned at `scorer.py`
line 130, so it no longer equals the table the caller passed in. -/
theorem scorer_mutates_stored_tables_cex :
    (calculate_risk_score 0 { last_modified := [], change_frequency := [] }
        { complexity := [],
          maintainability := [{ file_path := "a", maintainability_index := 1 }],
          test_coverage := [] }
        defaultWeights).2.2.maintainability
      = [{ file_path := "a", maintainability_index := 1,
           maintainability_score := some 0 }]
    ∧ [{ file_path := "a", maintainability_index := 1,
         maintainability_score := some 0 }]
      ≠ [({ file_path := "a", maintainability_index := 1 } : MaintRow)] := by
  constructor
  · simp only [calculate_risk_score, calculate_maintainability_score,
      calculate_coverage_score, normalize_metric, minMaxScale, listMin, listMax,
      List.isEmpty_cons, List.map, List.zipWith, reduceIte]
    norm_num
  · intro heq
    rw [List.cons.injEq] at heq
    have := congrArg MaintRow.maintainability_score heq.1
    simp at this

/-- C8 (amended): `calculate_risk_score` leaves the stored
`change_frequency` and `complexity` tables unchanged (their pipelines
build new frames via `groupby`), but it mutates the other three stored
tables in place whenever they are non-empty: `last_modified` gains the
`age_days` and `aging_score` columns, `maintainability` gains
`maintainability_score`, and `test_coverage` gains `coverage_score`. -/
theorem scorer_mutation_profile (now : ℚ) (g : GitMetrics) (s : StaticMetrics)
    (w : Weights)
    (hlm : g.last_modified ≠ [])
    (hlmf : ∀ r ∈ g.last_modified, r.age_days = none)
    (hmt : s.maintainability ≠ [])
    (hmtf : ∀ r ∈ s.maintainability, r.maintainability_score = none)
    (hcv : s.test_coverage ≠ [])
    (hcvf : ∀ r ∈ s.test_coverage, r.coverage_score = none) :
    ((calculate_risk_score now g s w).2.1.change_frequency = g.change_frequency)
    ∧ ((calculate_risk_score now g s w).2.2.complexity = s.complexity)
    ∧ ((calculate_risk_score now g s w).2.1.last_modified ≠ g.last_modified)
    ∧ ((calculate_risk_score now g s w).2.2.maintainability ≠ s.maintainability)
    ∧ ((calculate_risk_score now g s w).2.2.test_coverage ≠ s.test_coverage) :=
  ⟨rfl, rfl, aging_mutates hlm hlmf, maint_mutates hmt hmtf, cov_mutates hcv hcvf⟩

/-- C8 witness for the amended claim: a run with all three mutable
tables non-empty and fresh. -/
theorem scorer_mutation_profile_witness :
    ((calculate_risk_score 3
        { last_modified := [{ file_path := "x", last_modified := 0 }],
          change_frequency := [] }
        { complexity := [],
          maintainability := [{ file_path := "x", maintainability_index := 1 }],
          test_coverage := [{ file_path := "x", line_coverage := 2 }] }
        defaultWeights).2.1.change_frequency = [])
    ∧ ((calculate_risk_score 3
        { last_modified := [{ file_path := "x", last_modified := 0 }],
          change_frequency := [] }
        { complexity := [],
          maintainability := [{ file_path := "x", maintainability_index := 1 }],
          test_coverage := [{ file_path := "x", line_coverage := 2 }] }
        defaultWeights).2.2.complexity = [])
    ∧ ((calculate_risk_score 3
        { last_modified := [{ file_path := "x", last_modified := 0 }],
          change_frequency := [] }
        { complexity := [],
          maintainability := [{ file_path := "x", maintainability_index := 1 }],
          test_coverage := [{ file_path := "x", line_coverage := 2 }] }
        defaultWeights).2.1.last_modified
      ≠ [{ file_path := "x", last_modified := 0 }])
    ∧ ((calculate_risk_score 3
        { last_modified := [{ file_path := "x", last_modified := 0 }],
          change_frequency := [] }
        { complexity := [],
          maintainability := [{ file_path := "x", maintainability_index := 1 }],
          test_coverage := [{ file_path := "x", line_coverage := 2 }] }
        defaultWeights).2.2.maintainability
      ≠ [{ file_path := "x", maintainability_index := 1 }])
    ∧ ((calculate_risk_score 3
        { last_modified := [{ file_path := "x", last_modified := 0 }],
          change_frequency := [] }
        { complexity := [],
          maintainability := [{ file_path := "x", maintainability_index := 1 }],
          test_coverage := [{ file_path := "x", line_coverage := 2 }] }
        defaultWeights).2.2.test_coverage
      ≠ [{ file_path := "x", line_coverage := 2 }]) :=
  scorer_mutation_profile 3
    { last_modified := [{ file_path := "x", last_modified := 0 }],
      change_frequency := [] }
    { complexity := [],
      maintainability := [{ file_path := "x", maintainability_index := 1 }],
      test_coverage := [{ file_path := "x", line_coverage := 2 }] }
    defaultWeights
    (List.cons_ne_nil _ _)
    (by intro r hr; rcases List.mem_singleton.mp hr with rfl; rfl)
    (List.cons_ne_nil _ _)
    (by intro r hr; rcases List.mem_singleton.mp hr with rfl; rfl)
    (List.cons_ne_nil _ _)
    (by intro r hr; rcases List.mem_singleton.mp hr with rfl; rfl)

theorem singleton_flags_totalWeight (k : MetricKind) (w : Weights) :
    totalWeight (fun q => if q = k then true else false) w = weightOf w k := by
  cases k <;> simp [totalWeight, weightOf]

theorem singleton_flags_rowSum (k : MetricKind) (w : Weights) (fr : FilledRow) :
    rowSum (fun q => if q = k then true else false) w fr
      = weightOf w k * adjustedScore k fr := by
  cases k <;> simp [rowSum, weightOf, adjustedScore]

theorem single_kind_rows_exact {now : ℚ} {g : GitMetrics} {s : StaticMetrics}
    {w : Weights} {k : MetricKind} {df : ScoreDf} (hdf : df ≠ [])
    (hmr : mergedRisk now g s = step emptyRiskDF k df)
    (hw : 0 < weightOf w k) :
    ∀ x ∈ (calculate_risk_score now g s w).1,
      x.risk_score = adjustedScore k x.row := by
  have hfl : (mergedRisk now g s).flags = fun q => if q = k then true else false := by
    rw [hmr, step, if_neg (by rw [List.isEmpty_iff]; exact hdf)]
    rfl
  intro x hx
  obtain ⟨m, hm, rfl⟩ := mem_riskRows hx
  simp only [hfl, singleton_flags_totalWeight, singleton_flags_rowSum]
  rw [if_pos hw]
  exact mul_div_cancel_left₀ _ (ne_of_gt hw)

/-- C1: if exactly one metric kind is present (its source table
non-empty, all four other metric tables empty) and its configured weight
is strictly positive, then every output row has `risk_score` equal to
that metric's polarity-adjusted score (the score itself for aging,
frequency, complexity; one minus the score for maintainability,
coverage), independently of the magnitude of that weight and of the
weights configured for the absent kinds. -/
theorem single_present_metric_score_exact (k : MetricKind) (now : ℚ)
    (g : GitMetrics) (s : StaticMetrics) (w : Weights)
    (honly : ∀ q, present g s q ↔ q = k) (hw : 0 < weightOf w k) :
    ∀ x ∈ (calculate_risk_score now g s w).1,
      x.risk_score = adjustedScore k x.row := by
  cases k with
  | aging =>
    have hk : g.last_modified ≠ [] := (honly .aging).mpr rfl
    have h2 : g.change_frequency = [] := by
      by_contra hne
      exact absurd ((honly .frequency).mp hne) (by decide)
    have h3 : s.complexity = [] := by
      by_contra hne
      exact absurd ((honly .complexity).mp hne) (by decide)
    have h4 : s.maintainability = [] := by
      by_contra hne
      exact absurd ((honly .maintainability).mp hne) (by decide)
    have h5 : s.test_coverage = [] := by
      by_contra hne
      exact absurd ((honly .coverage).mp hne) (by decide)
    have hmr : mergedRisk now g s = step emptyRiskDF .aging ((calculate_aging_score now g.last_modified).2) := by
      rw [mergedRisk, align, List.foldl_cons, List.foldl_cons, List.foldl_cons,
        List.foldl_cons, List.foldl_cons, List.foldl_nil,
        freq_df_eq_nil.mpr h2, compl_df_eq_nil.mpr h3, maint_df_eq_nil.mpr h4,
        cov_df_eq_nil.mpr h5, step_nil_df, step_nil_df, step_nil_df, step_nil_df]
    exact single_kind_rows_exact (fun hnil => hk (aging_df_eq_nil.mp hnil)) hmr hw
  | frequency =>
    have hk : g.change_frequency ≠ [] := (honly .frequency).mpr rfl
    have h1 : g.last_modified = [] := by
      by_contra hne
      exact absurd ((honly .aging).mp hne) (by decide)
    have h3 : s.complexity = [] := by
      by_contra hne
      exact absurd ((honly .complexity).mp hne) (by decide)
    have h4 : s.maintainability = [] := by
      by_contra hne
      exact absurd ((honly .maintainability).mp hne) (by decide)
    have h5 : s.test_coverage = [] := by
      by_contra hne
      exact absurd ((honly .coverage).mp hne) (by decide)
    have hmr : mergedRisk now g s = step emptyRiskDF .frequency (calculate_change_frequency_score g.change_frequency) := by
      rw [mergedRisk, align, List.foldl_cons, List.foldl_cons, List.foldl_cons,
        List.foldl_cons, List.foldl_cons, List.foldl_nil,
        aging_df_eq_nil.mpr h1, compl_df_eq_nil.mpr h3, maint_df_eq_nil.mpr h4,
        cov_df_eq_nil.mpr h5, step_nil_df, step_nil_df, step_nil_df, step_nil_df]
    exact single_kind_rows_exact (fun hnil => hk (freq_df_eq_nil.mp hnil)) hmr hw
  | complexity =>
    have hk : s.complexity ≠ [] := (honly .complexity).mpr rfl
    have h1 : g.last_modified = [] := by
      by_contra hne
      exact absurd ((honly .aging).mp hne) (by decide)
    have h2 : g.change_frequency = [] := by
      by_contra hne
      exact absurd ((honly .frequency).mp hne) (by decide)
    have h4 : s.maintainability = [] := by
      by_contra hne
      exact absurd ((honly .maintainability).mp hne) (by decide)
    have h5 : s.test_coverage = [] := by
      by_contra hne
      exact absurd ((honly .coverage).mp hne) (by decide)
    have hmr : mergedRisk now g s = step emptyRiskDF .complexity (calculate_complexity_score s.complexity) := by
      rw [mergedRisk, align, List.foldl_cons, List.foldl_cons, List.foldl_cons,
        List.foldl_cons, List.foldl_cons, List.foldl_nil,
        aging_df_eq_nil.mpr h1, freq_df_eq_nil.mpr h2, maint_df_eq_nil.mpr h4,
        cov_df_eq_nil.mpr h5, step_nil_df, step_nil_df, step_nil_df, step_nil_df]
    exact single_kind_rows_exact (fun hnil => hk (compl_df_eq_nil.mp hnil)) hmr hw
  | maintainability =>
    have hk : s.maintainability ≠ [] := (honly .maintainability).mpr rfl
    have h1 : g.last_modified = [] := by
      by_contra hne
      exact absurd ((honly .aging).mp hne) (by decide)
    have h2 : g.change_frequency = [] := by
      by_contra hne
      exact absurd ((honly .frequency).mp hne) (by decide)
    have h3 : s.complexity = [] := by
      by_contra hne
      exact absurd ((honly .complexity).mp hne) (by decide)
    have h5 : s.test_coverage = [] := by
      by_contra hne
      exact absurd ((honly .coverage).mp hne) (by decide)
    have hmr : mergedRisk now g s = step emptyRiskDF .maintainability ((calculate_maintainability_score s.maintainability).2) := by
      rw [mergedRisk, align, List.foldl_cons, List.foldl_cons, List.foldl_cons,
        List.foldl_cons, List.foldl_cons, List.foldl_nil,
        aging_df_eq_nil.mpr h1, freq_df_eq_nil.mpr h2, compl_df_eq_nil.mpr h3,
        cov_df_eq_nil.mpr h5, step_nil_df, step_nil_df, step_nil_df, step_nil_df]
    exact single_kind_rows_exact (fun hnil => hk (maint_df_eq_nil.mp hnil)) hmr hw
  | coverage =>
    have hk : s.test_coverage ≠ [] := (honly .coverage).mpr rfl
    have h1 : g.last_modified = [] := by
      by_contra hne
      exact absurd ((honly .aging).mp hne) (by decide)
    have h2 : g.change_frequency = [] := by
      by_contra hne
      exact absurd ((honly .frequency).mp hne) (by decide)
    have h3 : s.complexity = [] := by
      by_contra hne
      exact absurd ((honly .complexity).mp hne) (by decide)
    have h4 : s.maintainability = [] := by
      by_contra hne
      exact absurd ((honly .maintainability).mp hne) (by decide)
    have hmr : mergedRisk now g s = step emptyRiskDF .coverage ((calculate_coverage_score s.test_coverage).2) := by
      rw [mergedRisk, align, List.foldl_cons, List.foldl_cons, List.foldl_cons,
        List.foldl_cons, List.foldl_cons, List.foldl_nil,
        aging_df_eq_nil.mpr h1, freq_df_eq_nil.mpr h2, compl_df_eq_nil.mpr h3,
        maint_df_eq_nil.mpr h4, step_nil_df, step_nil_df, step_nil_df, step_nil_df]
    exact single_kind_rows_exact (fun hnil => hk (cov_df_eq_nil.mp hnil)) hmr hw

/-- C1 witness: only the maintainability table (values 90 and 50) is
present, with weight 1; the top-ranked record (file `b`) scores exactly
one minus its maintainability score, `1 - 0 = 1`. -/
theorem single_present_metric_score_exact_witness :
    (⟨⟨"b", 1/2, 1/2, 1/2, 0, 1/2⟩, 1⟩ : OutRow).risk_score
      = adjustedScore .maintainability
          (⟨⟨"b", 1/2, 1/2, 1/2, 0, 1/2⟩, 1⟩ : OutRow).row := by
  have hout : (calculate_risk_score 0 { last_modified := [], change_frequency := [] }
      { complexity := [],
        maintainability := [{ file_path := "a", maintainability_index := 90 },
                            { file_path := "b", maintainability_index := 50 }],
        test_coverage := [] }
      (Weights.mk 0 0 0 1 0)).1
      = [(⟨⟨"b", 1/2, 1/2, 1/2, 0, 1/2⟩, 1⟩ : OutRow),
         (⟨⟨"a", 1/2, 1/2, 1/2, 1, 1/2⟩, 0⟩ : OutRow)] := by
    simp only [calculate_risk_score, riskRows, mergedRisk, align, step,
      calculate_aging_score, calculate_change_frequency_score,
      calculate_complexity_score, calculate_maintainability_score,
      calculate_coverage_score, normalize_metric, minMaxScale, listMin, listMax,
      emptyRiskDF, startRow, blankRow, setScore, fillRow, totalWeight, rowSum,
      List.foldl, List.isEmpty, List.map, List.zipWith, List.zip,
      List.insertionSort, List.orderedInsert, reduceCtorEq, reduceIte]
    norm_num [min_def, max_def]
  refine single_present_metric_score_exact .maintainability 0
    { last_modified := [], change_frequency := [] }
    { complexity := [],
      maintainability := [{ file_path := "a", maintainability_index := 90 },
                          { file_path := "b", maintainability_index := 50 }],
      test_coverage := [] }
    (Weights.mk 0 0 0 1 0) ?_ ?_
    (⟨⟨"b", 1/2, 1/2, 1/2, 0, 1/2⟩, 1⟩ : OutRow) ?_
  · intro q
    cases q <;> simp [present]
  · norm_num [weightOf]
  · rw [hout]
    exact List.mem_cons_self _ _

theorem key_of_acc_mem {acc : List MergedRow} {k : MetricKind} {df : ScoreDf}
    {r : MergedRow} (hr : r ∈ acc) :
    ∃ x ∈ mergeScore acc k df, x.file_path = r.file_path := by
  by_cases hempty : ((df.filter fun p => p.1 = r.file_path).isEmpty)
  · refine ⟨r, ?_, rfl⟩
    rw [mergeScore, List.mem_append]
    left
    rw [List.mem_flatten]
    refine ⟨_, List.mem_map.mpr ⟨r, hr, rfl⟩, ?_⟩
    show r ∈ (if ((df.filter fun p => p.1 = r.file_path).isEmpty) then [r]
      else (df.filter fun p => p.1 = r.file_path).map fun m => setScore k m.2 r)
    rw [if_pos hempty]
    exact List.mem_singleton.mpr rfl
  · have hne : (df.filter fun p => p.1 = r.file_path) ≠ [] := by
      intro hnil
      rw [hnil] at hempty
      exact hempty rfl
    obtain ⟨m, ms2, hcons⟩ := List.exists_cons_of_ne_nil hne
    have hmmem : m ∈ df.filter fun p => p.1 = r.file_path := by
      rw [hcons]
      exact List.mem_cons_self m ms2
    refine ⟨setScore k m.2 r, ?_, setScore_file_path k m.2 r⟩
    rw [mergeScore, List.mem_append]
    left
    rw [List.mem_flatten]
    refine ⟨_, List.mem_map.mpr ⟨r, hr, rfl⟩, ?_⟩
    show setScore k m.2 r ∈
      (if ((df.filter fun p => p.1 = r.file_path).isEmpty) then [r]
      else (df.filter fun p => p.1 = r.file_path).map fun m => setScore k m.2 r)
    rw [if_neg hempty]
    exact List.mem_map.mpr ⟨m, hmmem, rfl⟩

theorem mem_keys_mergeScore {acc : List MergedRow} {k : MetricKind}
    {df : ScoreDf} {fp : String} :
    fp ∈ (mergeScore acc k df).map MergedRow.file_path
      ↔ fp ∈ acc.map MergedRow.file_path ∨ fp ∈ df.map Prod.fst := by
  constructor
  · intro h
    rw [List.mem_map] at h
    obtain ⟨x, hx, rfl⟩ := h
    rcases mem_mergeScore hx with hin | ⟨r, hr, m, hm, rfl⟩ | ⟨m, hm, rfl⟩
    · exact Or.inl (List.mem_map.mpr ⟨x, hin, rfl⟩)
    · rw [setScore_file_path]
      exact Or.inl (List.mem_map.mpr ⟨r, hr, rfl⟩)
    · rw [setScore_file_path]
      exact Or.inr (List.mem_map.mpr ⟨m, hm, rfl⟩)
  · intro h
    rcases h with h | h
    · rw [List.mem_map] at h
      obtain ⟨r, hr, rfl⟩ := h
      obtain ⟨x, hx, hfp⟩ := @key_of_acc_mem acc k df _ hr
      exact List.mem_map.mpr ⟨x, hx, hfp⟩
    · rw [List.mem_map] at h
      obtain ⟨m, hm, rfl⟩ := h
      by_cases hacc : (acc.any fun r2 => r2.file_path = m.1) = true
      · rw [List.any_eq_true] at hacc
        obtain ⟨r, hr, hfp⟩ := hacc
        obtain ⟨x, hx, hxfp⟩ := @key_of_acc_mem acc k df _ hr
        exact List.mem_map.mpr ⟨x, hx, by rw [hxfp, of_decide_eq_true hfp]⟩
      · have hfilter : m ∈ df.filter fun m2 => ¬ acc.any fun r2 => r2.file_path = m2.1 :=
          List.mem_filter.mpr ⟨hm, decide_eq_true hacc⟩
        refine List.mem_map.mpr ⟨setScore k m.2 (blankRow m.1), ?_,
          setScore_file_path k m.2 (blankRow m.1)⟩
        rw [mergeScore, List.mem_append]
        right
        exact List.mem_map.mpr ⟨m, hfilter, rfl⟩

theorem step_keys {acc : RiskDF} {k : MetricKind} {df : ScoreDf} {fp : String} :
    fp ∈ (step acc k df).rows.map MergedRow.file_path
      ↔ fp ∈ acc.rows.map MergedRow.file_path ∨ fp ∈ df.map Prod.fst := by
  rw [step]
  by_cases h : df.isEmpty
  · rw [if_pos h]
    rw [List.isEmpty_iff] at h
    simp [h]
  · rw [if_neg h]
    simp only
    by_cases ha : acc.rows.isEmpty
    · rw [if_pos ha]
      rw [List.isEmpty_iff] at ha
      rw [ha]
      simp only [List.map_nil, List.not_mem_nil, false_or]
      rw [List.map_map]
      have hcomp : (MergedRow.file_path ∘ startRow k) = (Prod.fst : String × ℚ → String) := by
        funext p
        show (startRow k p).file_path = p.1
        rw [startRow, setScore_file_path]
        rfl
      rw [hcomp]
    · rw [if_neg ha]
      exact mem_keys_mergeScore

theorem foldl_keys (fp : String) :
    ∀ (l : List (MetricKind × ScoreDf)) (acc : RiskDF),
      fp ∈ ((l.foldl (fun a p => step a p.1 p.2) acc).rows.map MergedRow.file_path)
        ↔ fp ∈ acc.rows.map MergedRow.file_path
          ∨ ∃ p ∈ l, fp ∈ p.2.map Prod.fst := by
  intro l
  induction l with
  | nil => intro acc; simp
  | cons p t ih =>
    intro acc
    rw [List.foldl_cons, ih, step_keys]
    constructor
    · rintro ((h | h) | h)
      · exact Or.inl h
      · exact Or.inr ⟨p, List.mem_cons_self p t, h⟩
      · obtain ⟨q, hq, hfp⟩ := h
        exact Or.inr ⟨q, List.mem_cons_of_mem _ hq, hfp⟩
    · rintro (h | ⟨q, hq, hfp⟩)
      · exact Or.inl (Or.inl h)
      · rcases List.mem_cons.mp hq with rfl | hq2
        · exact Or.inl (Or.inr hfp)
        · exact Or.inr ⟨q, hq2, hfp⟩

/-- C9: the merged table built by the outer-join loop has a `file_path`
set equal to the union of the `file_path` sets of the non-empty score
frames, and that file set is unchanged under any permutation of the
order in which the score frames are supplied. -/
theorem aligned_fileset_union_perm (l₁ l₂ : List (MetricKind × ScoreDf))
    (hperm : l₁.Perm l₂) :
    (∀ fp : String,
      fp ∈ (align l₁).rows.map MergedRow.file_path
        ↔ ∃ p ∈ l₁, p.2 ≠ [] ∧ fp ∈ p.2.map Prod.fst)
    ∧ (∀ fp : String,
      fp ∈ (align l₁).rows.map MergedRow.file_path
        ↔ fp ∈ (align l₂).rows.map MergedRow.file_path) := by
  have hchar : ∀ (l : List (MetricKind × ScoreDf)) (fp : String),
      fp ∈ (align l).rows.map MergedRow.file_path
        ↔ ∃ p ∈ l, p.2 ≠ [] ∧ fp ∈ p.2.map Prod.fst := by
    intro l fp
    rw [align, foldl_keys]
    simp only [emptyRiskDF, List.map_nil, List.not_mem_nil, false_or]
    constructor
    · rintro ⟨p, hp, hfp⟩
      refine ⟨p, hp, ?_, hfp⟩
      intro hnil
      rw [hnil] at hfp
      simp at hfp
    · rintro ⟨p, hp, _, hfp⟩
      exact ⟨p, hp, hfp⟩
  refine ⟨hchar l₁, ?_⟩
  intro fp
  rw [hchar l₁ fp, hchar l₂ fp]
  constructor
  · rintro ⟨p, hp, h⟩
    exact ⟨p, hperm.mem_iff.mp hp, h⟩
  · rintro ⟨p, hp, h⟩
    exact ⟨p, hperm.mem_iff.mpr hp, h⟩

/-- C9 witness: two one-row score frames supplied in either order give a
merged table with the same membership for file `a`. -/
theorem aligned_fileset_union_perm_witness :
    ("a" ∈ (align [(.maintainability, [("a", 0)]),
                   (.coverage, [("b", 1)])]).rows.map MergedRow.file_path
      ↔ "a" ∈ (align [(.coverage, [("b", 1)]),
                      (.maintainability, [("a", 0)])]).rows.map MergedRow.file_path) :=
  (aligned_fileset_union_perm
    [(.maintainability, [("a", 0)]), (.coverage, [("b", 1)])]
    [(.coverage, [("b", 1)]), (.maintainability, [("a", 0)])]
    (List.Perm.swap _ _ _)).2 ("a")

end TDA
